import Mathlib

/-
Verification development for the sharded changelog storage layer
(src/db/shard_manager.py, src/db/db_schema.py) and the checkpointed
migration runner (scripts/migrate_to_sharded.py).

Modelling conventions (shallow embedding):
* The filesystem is an association list from path strings to `File`
  records.  A shard file is abstracted to its byte size, its mtime
  (a natural number; wall-clock instants are encoded as year*12+month),
  and the list of `page_id` keys stored in its `entries` table, in
  insertion order.  `init_db` (db_schema.py, CREATE TABLE IF NOT EXISTS)
  is modelled as "create an empty file only when the path is absent".
* Wall-clock time is an explicit `Clock := Nat × Nat` (year, month)
  parameter passed to every operation that reads `datetime.now()`.
* Exceptions are modelled with `Option`: `none` means the Python call
  raised.  File contents that may be absent or unparsable are modelled
  as `Option (Option α)`: `none` = file absent, `some none` = present
  but unparsable, `some (some x)` = parses to `x`.
* sqlite row size is abstracted: each migrated entry carries a `size`
  field by which its target shard file grows on insertion.
* Transient/permanent storage failures during migration are decided by
  an oracle `attempts : Nat → Att` attached to each entry: attempt `n`
  either succeeds (`ok`, the insert runs), raises
  `sqlite3.OperationalError` (`transient`), or raises another
  exception (`perm`).  A failed attempt leaves the state unchanged
  (the sqlite transaction is never committed).
-/

abbrev Clock := Nat × Nat

/-- Wall-clock instants linearized for mtime comparison. -/
def clockVal (c : Clock) : Nat := c.1 * 12 + c.2

structure File where
  size : Nat
  mtime : Nat
  keys : List String
  deriving DecidableEq, Repr

abbrev FS := List (String × File)

/-- First-match lookup in an association list (Python dict/file lookup). -/
def lookupA {α : Type} : List (String × α) → String → Option α
  | [], _ => none
  | x :: xs, p => if x.1 = p then some x.2 else lookupA xs p

/-- Replace the first binding of a key, or append a new binding
(Python dict assignment / writing a file at a path). -/
def setA {α : Type} : List (String × α) → String → α → List (String × α)
  | [], p, f => [(p, f)]
  | x :: xs, p, f => if x.1 = p then (p, f) :: xs else x :: setA xs p f

/-- Size reported by the filesystem for a path; absent files report 0. -/
def fileSize (fs : FS) (p : String) : Nat :=
  match lookupA fs p with
  | some f => f.size
  | none => 0

/-- ShardedChangelogDB state: configuration, in-memory shard index
(write-through, so it also stands for the on-disk index file), and the
current write shard pointer. -/
structure SM where
  base_path : String
  shard_size_limit_bytes : Nat
  shard_index : List (String × String)
  current_shard_path : String
  deriving DecidableEq, Repr

/-- Router state bundled with the filesystem it operates on. -/
structure St where
  sm : SM
  fs : FS
  deriving DecidableEq, Repr

/-- Two-digit month formatting, Python f-string {now.month:02d}. -/
def pad2 (m : Nat) : String := if m < 10 then "0" ++ toString m else toString m

/-- Shard file name derived from the wall clock,
f"changelog_{now.year}_{now.month:02d}.db" joined to the base path. -/
def shardName (base : String) (c : Clock) : String :=
  base ++ "/changelog_" ++ toString c.1 ++ "_" ++ pad2 c.2 ++ ".db"

/-- init_db (db_schema.py lines 78-149): CREATE TABLE IF NOT EXISTS on
every table, so an existing database file is left untouched; an absent
one is created empty (size counts record bytes, so a fresh schema-only
file has size 0). -/
def init_db (fs : FS) (p : String) (c : Clock) : FS :=
  match lookupA fs p with
  | some _ => fs
  | none => setA fs p ⟨0, clockVal c, []⟩

/-- ShardedChangelogDB._create_new_shard (shard_manager.py 225-240). -/
def create_new_shard (base : String) (fs : FS) (c : Clock) : String × FS :=
  let p := shardName base c
  (p, init_db fs p c)

/-- ShardedChangelogDB._check_shard_size (shard_manager.py 203-223):
missing file: False; otherwise current_size >= shard_size_limit_bytes. -/
def check_shard_size (fs : FS) (p : String) (limit : Nat) : Bool :=
  match lookupA fs p with
  | none => false
  | some f => limit ≤ f.size

/-- ShardedChangelogDB.get_shard_for_writing (shard_manager.py 242-254). -/
def get_shard_for_writing (st : St) (c : Clock) : St × String :=
  if check_shard_size st.fs st.sm.current_shard_path st.sm.shard_size_limit_bytes then
    let r := create_new_shard st.sm.base_path st.fs c
    (⟨{ st.sm with current_shard_path := r.1 }, r.2⟩, r.1)
  else
    (st, st.sm.current_shard_path)

/-- Test that a path lies directly in the base directory and matches the
glob "changelog_*.db" (shard_manager.py 185-192). -/
def isShardFile (base p : String) : Bool :=
  List.isPrefixOf (base ++ "/changelog_").data p.data &&
  List.isSuffixOf ".db".data p.data &&
  !((p.data.drop (base.length + 1)).contains '/')

/-- Lexicographic comparison of character lists by code point, the
order Python sorted() applies to path strings. -/
def strLt : List Char → List Char → Bool
  | [], [] => false
  | [], _ :: _ => true
  | _ :: _, [] => false
  | a :: as, b :: bs =>
    if a.toNat < b.toNat then true
    else if b.toNat < a.toNat then false
    else strLt as bs

/-- Insert into a list sorted ascending by the string order. -/
def sortInsert (s : String) : List String → List String
  | [] => [s]
  | t :: ts => if strLt s.data t.data then s :: t :: ts else t :: sortInsert s ts

/-- Python sorted(): stable ascending sort. -/
def sortStr (l : List String) : List String := l.foldr sortInsert []

/-- ShardedChangelogDB._get_all_shard_paths (shard_manager.py 178-192):
glob the base directory for changelog_*.db and sort. -/
def get_all_shard_paths (base : String) (fs : FS) : List String :=
  sortStr ((fs.map (fun x => x.1)).filter (fun p => isShardFile base p))

/-- ShardedChangelogDB.get_all_shards (shard_manager.py 194-201). -/
def get_all_shards (base : String) (fs : FS) : List String :=
  get_all_shard_paths base fs

/-- ShardIndex.get_shard_for_page (shard_manager.py 71-85). -/
def get_shard_for_page (idx : List (String × String)) (pid : String) : Option String :=
  lookupA idx pid

/-- ShardIndex.add_page (shard_manager.py 50-69): update (and persist,
which the write-through model makes implicit) only when the page is
absent or bound to a different shard.  Path normalization is the
identity here since the model works with already-normal paths. -/
def add_page (idx : List (String × String)) (pid shard : String) :
    List (String × String) :=
  if lookupA idx pid = some shard then idx else setA idx pid shard

/-- ShardedChangelogDB.get_shard_for_reading (shard_manager.py 256-275).
The Python truthiness test on shard_path is the `sp ≠ ""` conjunct. -/
def get_shard_for_reading (st : St) (pid? : Option String) : List String :=
  match pid? with
  | some pid =>
    match get_shard_for_page st.sm.shard_index pid with
    | some sp =>
      if sp ≠ "" ∧ (lookupA st.fs sp).isSome then [sp]
      else get_all_shards st.sm.base_path st.fs
    | none => get_all_shards st.sm.base_path st.fs
  | none => get_all_shards st.sm.base_path st.fs

/-- Keys a shard file contributes when scanned; a file that cannot be
opened is skipped by rebuild_index (its try/except). -/
def keysOf (fs : FS) (p : String) : List String :=
  match lookupA fs p with
  | some f => f.keys
  | none => []

/-- Fold of rebuild_index over a list of shard paths: for every key of
every scanned shard, add_page it into the accumulating index. -/
def scanShards (fs : FS) (ps : List String) (idx : List (String × String)) :
    List (String × String) :=
  ps.foldl (fun acc p => (keysOf fs p).foldl (fun a k => add_page a k p) acc) idx

/-- ShardedChangelogDB.rebuild_index (shard_manager.py 296-332): clear
the index, scan every shard's page_ids, re-add each, save. -/
def rebuild_index (sm : SM) (fs : FS) : SM :=
  { sm with shard_index := scanShards fs (get_all_shard_paths sm.base_path fs) [] }

/-- ShardIndex._load_index (shard_manager.py 35-48): absent or
unparsable index file loads as the empty mapping. -/
def load_index (idxFile : Option (Option (List (String × String)))) :
    List (String × String) :=
  match idxFile with
  | some (some l) => l
  | _ => []

/-- mtime reported for a path (absent: 0; only queried on existing shards). -/
def mtimeOf (fs : FS) (p : String) : Nat :=
  match lookupA fs p with
  | some f => f.mtime
  | none => 0

/-- Python max(shards, key=mtime): first element of maximal mtime. -/
def mostRecent (fs : FS) : List String → Option String
  | [] => none
  | h :: t => some (t.foldl (fun acc p => if mtimeOf fs acc < mtimeOf fs p then p else acc) h)

/-- ShardedChangelogDB._get_or_create_current_shard (shard_manager.py
154-176): no shards: create one; otherwise take the most recently
modified and rotate immediately if it already exceeds the limit. -/
def get_or_create_current_shard (base : String) (limit : Nat) (fs : FS) (c : Clock) :
    String × FS :=
  match mostRecent fs (get_all_shard_paths base fs) with
  | none => create_new_shard base fs c
  | some p =>
    if check_shard_size fs p limit then create_new_shard base fs c
    else (p, fs)

/-- ShardedChangelogDB.__init__ (shard_manager.py 136-152): fix the
byte limit, load the index file, bind the current shard. -/
def mkShardedChangelogDB (base : String) (limit_mb : Nat)
    (idxFile : Option (Option (List (String × String)))) (fs : FS) (c : Clock) :
    SM × FS :=
  let limit := limit_mb * 1024 * 1024
  let r := get_or_create_current_shard base limit fs c
  ({ base_path := base, shard_size_limit_bytes := limit,
     shard_index := load_index idxFile, current_shard_path := r.1 }, r.2)

/-- get_shard_manager (shard_manager.py 338-354): process-wide
singleton; the stored instance, when present, is returned unchanged and
the arguments are ignored. -/
def get_shard_manager (base : String) (limit_mb : Nat) (inst : Option SM)
    (idxFile : Option (Option (List (String × String)))) (fs : FS) (c : Clock) :
    SM × Option SM × FS :=
  match inst with
  | some m => (m, some m, fs)
  | none =>
    let r := mkShardedChangelogDB base limit_mb idxFile fs c
    (r.1, some r.1, r.2)

/-- Migration constants (migrate_to_sharded.py 233-238). -/
def MAX_RETRIES : Nat := 3

/-- Per-retry delay unit in seconds (migrate_to_sharded.py 235). -/
def RETRY_DELAY : Nat := 5

/-- Migration checkpoint record (migrate_to_sharded.py 240-264). -/
structure Checkpoint where
  last_batch : Nat
  entries_processed : Nat
  last_timestamp : String
  processed_page_ids : List String
  current_shard : String
  deriving DecidableEq, Repr

/-- load_checkpoint (migrate_to_sharded.py 240-264): absent or
unparsable file yields the default checkpoint stamped with now(). -/
def load_checkpoint (cpFile : Option (Option Checkpoint)) (ts : String) : Checkpoint :=
  match cpFile with
  | some (some cp) => cp
  | _ => ⟨0, 0, ts, [], ""⟩

/-- Outcome of one insertion attempt, decided by the entry's oracle:
ok lets insert_entry_to_shard run, transient models
sqlite3.OperationalError, perm models any other exception. -/
inductive Att
  | ok
  | transient
  | perm
  deriving DecidableEq, Repr

/-- A legacy-store record as the migration sees it: its page_id, the
number of bytes its rows add to a shard file, and its failure oracle.
The remaining columns (title, revision data, training metadata, token
impacts) do not influence routing, dedup or checkpointing and are
omitted. -/
structure Entry where
  page_id : String
  size : Nat
  attempts : Nat → Att

/-- insert_entry_to_shard (migrate_to_sharded.py 127-231): pick the
write shard (possibly rotating), skip when the page_id already exists
in that shard, otherwise insert the rows, grow the file, and add_page
the key into the shard index.  `none` models a raised exception: the
only structural raise kept in the model is the missing-shard-file case
(the SELECT then fails with OperationalError); it leaves the state
unchanged because nothing is committed. -/
def insert_entry_to_shard (e : Entry) (st : St) (c : Clock) : Option St :=
  let w := get_shard_for_writing st c
  let st1 := w.1
  let shard := w.2
  match lookupA st1.fs shard with
  | none => none
  | some f =>
    if e.page_id ∈ f.keys then some st1
    else
      let fs2 := setA st1.fs shard ⟨f.size + e.size, clockVal c, f.keys ++ [e.page_id]⟩
      some ⟨{ st1.sm with shard_index := add_page st1.sm.shard_index e.page_id shard }, fs2⟩

/-- The while-not-success-and-retries-limited loop of process_batch
(migrate_to_sharded.py 306-322), recursing on the number of attempts
the `retries < MAX_RETRIES` guard still allows (the second argument,
kept equal to MAX_RETRIES - retries by attempt_insert).  Returns the
final outcome and the list of back-off sleeps
time.sleep(RETRY_DELAY * retries) performed, in order. -/
def attempt_go (e : Entry) (st : St) (c : Clock) : Nat → Nat → Option St × List Nat
  | _, 0 => (none, [])
  | retries, fuel + 1 =>
    match e.attempts retries with
    | Att.ok =>
      match insert_entry_to_shard e st c with
      | some r => (some r, [])
      | none =>
        let t := attempt_go e st c (retries + 1) fuel
        (t.1, RETRY_DELAY * (retries + 1) :: t.2)
    | Att.transient =>
      let t := attempt_go e st c (retries + 1) fuel
      (t.1, RETRY_DELAY * (retries + 1) :: t.2)
    | Att.perm => (none, [])

/-- The retry loop entered with the given retries counter (0 in
process_batch): the loop may still run while retries < MAX_RETRIES. -/
def attempt_insert (e : Entry) (st : St) (c : Clock) (retries : Nat) :
    Option St × List Nat :=
  attempt_go e st c retries (MAX_RETRIES - retries)

/-- process_batch (migrate_to_sharded.py 280-324): per entry, skip and
count when the key is already in the checkpoint's processed set,
otherwise run the retry loop; on success append the key to the
processed set and count; on failure move on.  Returns the final state,
checkpoint and processed_count. -/
def process_batch (es : List Entry) (st : St) (cp : Checkpoint) (c : Clock) :
    St × Checkpoint × Nat :=
  match es with
  | [] => (st, cp, 0)
  | e :: rest =>
    if e.page_id ∈ cp.processed_page_ids then
      let r := process_batch rest st cp c
      (r.1, r.2.1, r.2.2 + 1)
    else
      match (attempt_insert e st c 0).1 with
      | some st1 =>
        let cp1 := { cp with processed_page_ids := cp.processed_page_ids ++ [e.page_id] }
        let r := process_batch rest st1 cp1 c
        (r.1, r.2.1, r.2.2 + 1)
      | none => process_batch rest st cp c

/-- Per-entry outcome classification of one process_batch run, used to
specify what processed_count counts. -/
inductive BOut
  | skipped
  | inserted
  | failed
  deriving DecidableEq, Repr

/-- Trace of outcomes a batch produces, mirroring process_batch. -/
def batch_outcomes (es : List Entry) (st : St) (cp : Checkpoint) (c : Clock) :
    List BOut :=
  match es with
  | [] => []
  | e :: rest =>
    if e.page_id ∈ cp.processed_page_ids then
      BOut.skipped :: batch_outcomes rest st cp c
    else
      match (attempt_insert e st c 0).1 with
      | some st1 =>
        let cp1 := { cp with processed_page_ids := cp.processed_page_ids ++ [e.page_id] }
        BOut.inserted :: batch_outcomes rest st1 cp1 c
      | none => BOut.failed :: batch_outcomes rest st cp c

/-- Migration-loop state: router + filesystem, in-memory checkpoint,
and the on-disk checkpoint file. -/
structure MigSt where
  st : St
  cp : Checkpoint
  cpFile : Option (Option Checkpoint)
  deriving Repr

/-- The body of one iteration of the migration while-loop
(migrate_to_sharded.py 375-419): fetch the batch at the current source
offset (SELECT ... ORDER BY id LIMIT batch_size OFFSET offset), run
process_batch, update every checkpoint field (current_shard through a
further get_shard_for_writing call, which can itself rotate), and save
the checkpoint to disk. -/
def migrate_batch (source : List Entry) (bsize : Nat) (c : Clock) (ts : String)
    (offset bn : Nat) (m : MigSt) : MigSt :=
  let entries := (source.drop offset).take bsize
  let r := process_batch entries m.st m.cp c
  let w := get_shard_for_writing r.1 c
  let cp2 := { r.2.1 with
    last_batch := bn,
    entries_processed := offset + r.2.2,
    last_timestamp := ts,
    current_shard := w.2 }
  ⟨w.1, cp2, some (some cp2)⟩

/-- The migration while-loop (migrate_to_sharded.py 375-419).  `fuel`
bounds the number of batches actually run: an operator interrupt
(cooperative, between batches) is modelled as the fuel running out
while offset < total.  `clocks bn` is the wall clock during batch bn.
Returns the final state and the final (offset, batch_num). -/
def migrate_loop (source : List Entry) (bsize : Nat) (clocks : Nat → Clock)
    (ts : String) (total : Nat) :
    Nat → Nat → Nat → MigSt → MigSt × Nat × Nat
  | 0, offset, bn, m => (m, offset, bn)
  | fuel + 1, offset, bn, m =>
    if offset < total then
      migrate_loop source bsize clocks ts total fuel (offset + bsize) (bn + 1)
        (migrate_batch source bsize (clocks bn) ts offset bn m)
    else (m, offset, bn)

/-- The checkpoint-or-fresh-start decision of migrate_database
(migrate_to_sharded.py 351-369): when the checkpoint file exists and
force_restart is off, load it and resume at its entries_processed and
last_batch + 1; otherwise start fresh at offset 0, batch 1. -/
def resume_start (cpFile : Option (Option Checkpoint)) (force_restart : Bool)
    (ts : String) : Checkpoint × Nat × Nat :=
  if cpFile.isSome ∧ force_restart = false then
    let cp := load_checkpoint cpFile ts
    (cp, cp.entries_processed, cp.last_batch + 1)
  else
    (⟨0, 0, ts, [], ""⟩, 0, 1)

/-- migrate_database (migrate_to_sharded.py 326-440): obtain the
singleton shard manager, resolve the checkpoint, run the batch loop;
when the loop exhausted the source (offset >= total) rebuild the shard
index and delete the checkpoint file, otherwise (interrupt) return
with the checkpoint file as last saved.  Also returns the process-wide
singleton slot after the run. -/
def migrate_database (source : List Entry) (target : String) (bsize limit_mb : Nat)
    (force_restart : Bool) (inst : Option SM)
    (idxFile : Option (Option (List (String × String))))
    (fs : FS) (cpFile : Option (Option Checkpoint))
    (clocks : Nat → Clock) (ts : String) (fuel : Nat) : MigSt × Option SM :=
  let g := get_shard_manager target limit_mb inst idxFile fs (clocks 0)
  let total := source.length
  let s := resume_start cpFile force_restart ts
  let m0 : MigSt := ⟨⟨g.1, g.2.2⟩, s.1, cpFile⟩
  let r := migrate_loop source bsize clocks ts total fuel s.2.1 s.2.2 m0
  if total ≤ r.2.1 then
    let sm2 := rebuild_index r.1.st.sm r.1.st.fs
    (⟨⟨sm2, r.1.st.fs⟩, r.1.cp, none⟩, g.2.1)
  else (r.1, g.2.1)

/-- Total number of occurrences of a page_id key across every shard
file of the filesystem. -/
def countKey (k : String) (fs : FS) : Nat :=
  (fs.map (fun x => x.2.keys.count k)).sum

/-- Trace of write targets returned by successive get_shard_for_writing
calls; before each call the filesystem may have been changed
arbitrarily by external writes (each step supplies the clock at call
time and the filesystem state then observed). -/
def write_trace (st : St) : List (Clock × FS) → List String
  | [] => []
  | s :: rest =>
    let r := get_shard_for_writing ⟨st.sm, s.2⟩ s.1
    r.2 :: write_trace r.1 rest

theorem lookupA_setA {α : Type} (l : List (String × α)) (p q : String) (f : α) :
    lookupA (setA l p f) q = if q = p then some f else lookupA l q := by
  induction l with
  | nil =>
    show (if p = q then some f else none) = if q = p then some f else none
    by_cases h : p = q
    · simp [h]
    · rw [if_neg h, if_neg (fun hh => h hh.symm)]
  | cons x xs ih =>
    show lookupA (if x.1 = p then (p, f) :: xs else x :: setA xs p f) q = _
    by_cases hx : x.1 = p
    · rw [if_pos hx]
      show (if p = q then some f else lookupA xs q) = if q = p then some f else lookupA (x :: xs) q
      by_cases h : p = q
      · rw [if_pos h, if_pos h.symm]
      · rw [if_neg h, if_neg (fun hh => h hh.symm)]
        show lookupA xs q = if x.1 = q then some x.2 else lookupA xs q
        rw [if_neg (hx ▸ h)]
    · rw [if_neg hx]
      show (if x.1 = q then some x.2 else lookupA (setA xs p f) q) =
        if q = p then some f else lookupA (x :: xs) q
      by_cases h : x.1 = q
      · have hqp : ¬q = p := fun hh => hx (h.trans hh)
        rw [if_pos h, if_neg hqp]
        show some x.2 = if x.1 = q then some x.2 else lookupA xs q
        rw [if_pos h]
      · rw [if_neg h, ih]
        by_cases h2 : q = p
        · rw [if_pos h2, if_pos h2]
        · rw [if_neg h2, if_neg h2]
          show lookupA xs q = if x.1 = q then some x.2 else lookupA xs q
          rw [if_neg h]

theorem lookupA_init_db (fs : FS) (p q : String) (c : Clock) (hne : p ≠ q) :
    lookupA (init_db fs q c) p = lookupA fs p := by
  unfold init_db
  split
  · rfl
  · rw [lookupA_setA, if_neg hne]

/-- C8: loading metadata never raises: an absent or unparsable index
file loads as the empty mapping, and an absent or unparsable checkpoint
file loads as the zero-value checkpoint (last_batch 0,
entries_processed 0, empty processed_page_ids). -/
theorem c8_metadata_load_defaults :
    (load_index none = [] ∧ load_index (some none) = []) ∧
    ∀ ts : String,
      load_checkpoint none ts = ⟨0, 0, ts, [], ""⟩ ∧
      load_checkpoint (some none) ts = ⟨0, 0, ts, [], ""⟩ :=
  ⟨⟨rfl, rfl⟩, fun _ => ⟨rfl, rfl⟩⟩

/-- C10: get_shard_manager is a process-wide singleton that ignores its
arguments after the first call: whatever base path, size limit, index
file, filesystem and clock the second call passes, it returns the
instance constructed by the first call, and the stored slot is
unchanged. -/
theorem c10_shard_manager_singleton (b1 b2 : String) (l1 l2 : Nat)
    (i1 i2 : Option (Option (List (String × String)))) (fs1 fs2 : FS)
    (c1 c2 : Clock) :
    (get_shard_manager b2 l2 (get_shard_manager b1 l1 none i1 fs1 c1).2.1 i2 fs2 c2).1 =
      (get_shard_manager b1 l1 none i1 fs1 c1).1 ∧
    (get_shard_manager b2 l2 (get_shard_manager b1 l1 none i1 fs1 c1).2.1 i2 fs2 c2).2.1 =
      (get_shard_manager b1 l1 none i1 fs1 c1).2.1 ∧
    (get_shard_manager b2 l2 (get_shard_manager b1 l1 none i1 fs1 c1).2.1 i2 fs2 c2).2.2 =
      fs2 := by
  simp [get_shard_manager]

/-- C9: the path of a newly created shard depends only on the base
directory and the wall-clock year and month (any two creations in the
same calendar month yield the same path), and creating a shard at an
already existing path leaves the filesystem, hence the existing file's
contents, unchanged (CREATE TABLE IF NOT EXISTS). -/
theorem c9_shard_name_monthly (base : String) (c : Clock) (fs1 fs2 : FS) (f : File)
    (hex : lookupA fs1 (shardName base c) = some f) :
    (create_new_shard base fs1 c).1 = (create_new_shard base fs2 c).1 ∧
    (create_new_shard base fs1 c).1 = shardName base c ∧
    (create_new_shard base fs1 c).2 = fs1 := by
  refine ⟨rfl, rfl, ?_⟩
  simp [create_new_shard, init_db, hex]

/-- C9 witness: creating the 2025-01 shard twice over distinct
filesystems yields the same path, and the existing file is preserved. -/
theorem c9_shard_name_monthly_witness :
    lookupA [("data/changelog_2025_01.db", (⟨5, 0, ["k"]⟩ : File))]
      (shardName "data" (2025, 1)) = some ⟨5, 0, ["k"]⟩ ∧
    (create_new_shard "data" [("data/changelog_2025_01.db", ⟨5, 0, ["k"]⟩)] (2025, 1)).2 =
      [("data/changelog_2025_01.db", ⟨5, 0, ["k"]⟩)] :=
  ⟨by decide,
   (c9_shard_name_monthly "data" (2025, 1)
     [("data/changelog_2025_01.db", ⟨5, 0, ["k"]⟩)] [] ⟨5, 0, ["k"]⟩ (by decide)).2.2⟩

/-- C7: when a page_id is given, is indexed, and the indexed shard file
exists on disk (the empty string names no file), reading routes to
exactly that single shard; with no page_id, an unindexed key, or a
missing indexed file, it falls back to all known shards. -/
theorem c7_read_routing (st : St) (pid sp : String)
    (h1 : get_shard_for_page st.sm.shard_index pid = some sp)
    (h2 : sp ≠ "")
    (h3 : (lookupA st.fs sp).isSome = true) :
    get_shard_for_reading st (some pid) = [sp] ∧
    get_shard_for_reading st none = get_all_shards st.sm.base_path st.fs ∧
    (∀ q, get_shard_for_page st.sm.shard_index q = none →
      get_shard_for_reading st (some q) = get_all_shards st.sm.base_path st.fs) ∧
    (∀ q sq, get_shard_for_page st.sm.shard_index q = some sq →
      lookupA st.fs sq = none →
      get_shard_for_reading st (some q) = get_all_shards st.sm.base_path st.fs) := by
  refine ⟨?_, rfl, ?_, ?_⟩
  · simp [get_shard_for_reading, h1, h2, h3]
  · intro q hq
    simp [get_shard_for_reading, hq]
  · intro q sq hq hmiss
    simp [get_shard_for_reading, hq, hmiss]

/-- Concrete router state for the C7 witness. -/
def c7St : St :=
  ⟨⟨"data", 94371840, [("p7", "data/changelog_2025_03.db")], "data/changelog_2025_03.db"⟩,
   [("data/changelog_2025_03.db", ⟨10, 0, ["p7"]⟩)]⟩

/-- C7 witness: the indexed, on-disk shard is returned alone. -/
theorem c7_read_routing_witness :
    (get_shard_for_page c7St.sm.shard_index "p7" = some "data/changelog_2025_03.db" ∧
     "data/changelog_2025_03.db" ≠ "" ∧
     (lookupA c7St.fs "data/changelog_2025_03.db").isSome = true) ∧
    get_shard_for_reading c7St (some "p7") = ["data/changelog_2025_03.db"] :=
  ⟨⟨by decide, by decide, by decide⟩,
   (c7_read_routing c7St "p7" "data/changelog_2025_03.db"
     (by decide) (by decide) (by decide)).1⟩

theorem gsfw_base (st : St) (c : Clock) :
    (get_shard_for_writing st c).1.sm.base_path = st.sm.base_path := by
  unfold get_shard_for_writing
  split <;> rfl

theorem gsfw_current (st : St) (c : Clock) :
    (get_shard_for_writing st c).1.sm.current_shard_path = (get_shard_for_writing st c).2 := by
  unfold get_shard_for_writing
  split <;> rfl

theorem gsfw_target_cases (st : St) (c : Clock) :
    (get_shard_for_writing st c).2 = st.sm.current_shard_path ∨
    (get_shard_for_writing st c).2 = shardName st.sm.base_path c := by
  unfold get_shard_for_writing
  split
  · right; rfl
  · left; rfl

theorem write_trace_avoids (old : String) (steps : List (Clock × FS)) :
    ∀ st : St, st.sm.current_shard_path ≠ old →
      (∀ s ∈ steps, shardName st.sm.base_path s.1 ≠ old) →
      old ∉ write_trace st steps := by
  induction steps with
  | nil =>
    intro st _ _
    simp [write_trace]
  | cons s rest ih =>
    intro st h1 h2
    have hne : (get_shard_for_writing ⟨st.sm, s.2⟩ s.1).2 ≠ old := by
      rcases gsfw_target_cases ⟨st.sm, s.2⟩ s.1 with hc | hc
      · rw [hc]; exact h1
      · rw [hc]; exact h2 s (List.mem_cons_self s rest)
    have hrec : old ∉ write_trace (get_shard_for_writing ⟨st.sm, s.2⟩ s.1).1 rest := by
      apply ih
      · rw [gsfw_current]; exact hne
      · intro s2 hs2
        rw [gsfw_base]
        exact h2 s2 (List.mem_cons_of_mem s hs2)
    show old ∉ (get_shard_for_writing ⟨st.sm, s.2⟩ s.1).2 ::
      write_trace (get_shard_for_writing ⟨st.sm, s.2⟩ s.1).1 rest
    intro hmem
    rcases List.mem_cons.mp hmem with hh | hh
    · exact hne hh.symm
    · exact hrec hh

/-- Router state for the C1 counterexample: the current write shard is
the current month's shard and already at the 100-byte limit. -/
def c1St : St :=
  ⟨⟨"data", 100, [], "data/changelog_2025_10.db"⟩,
   [("data/changelog_2025_10.db", ⟨100, 0, []⟩)]⟩

/-- C1 counterexample: with the wall clock still in the month the
over-limit current shard is named after, get_shard_for_writing "rotates"
to the very same path (the name is derived from year and month only and
init_db keeps existing contents), so the returned write target is the
old shard, its size is still at the limit at the moment of the check,
and the next call returns the old over-limit shard yet again —
refuting the claimed guarantees. -/
theorem c1_rotation_same_month_cex :
    check_shard_size c1St.fs c1St.sm.current_shard_path c1St.sm.shard_size_limit_bytes = true ∧
    (get_shard_for_writing c1St (2025, 10)).2 = c1St.sm.current_shard_path ∧
    c1St.sm.shard_size_limit_bytes ≤
      fileSize (get_shard_for_writing c1St (2025, 10)).1.fs
        (get_shard_for_writing c1St (2025, 10)).2 ∧
    (get_shard_for_writing (get_shard_for_writing c1St (2025, 10)).1 (2025, 10)).2 =
      c1St.sm.current_shard_path := by
  decide

/-- C1 amended: if, when get_shard_for_writing is called, the current
write shard measures at or over the limit AND the shard name derived
from the current wall clock differs from the current shard's path AND
no file of at-limit size already sits at that derived path, then a new
shard is created, bound and returned, the returned shard's size is
below the limit at the moment of the check, and the old over-limit
shard is never returned by any later get_shard_for_writing call whose
wall clock does not re-derive the old shard's name (months never
repeat under a monotone clock). -/
theorem c1_rotation_amended (st : St) (c : Clock)
    (h0 : 0 < st.sm.shard_size_limit_bytes)
    (h1 : check_shard_size st.fs st.sm.current_shard_path st.sm.shard_size_limit_bytes = true)
    (h2 : shardName st.sm.base_path c ≠ st.sm.current_shard_path)
    (h3 : fileSize st.fs (shardName st.sm.base_path c) < st.sm.shard_size_limit_bytes) :
    (get_shard_for_writing st c).2 = shardName st.sm.base_path c ∧
    (get_shard_for_writing st c).1.sm.current_shard_path = shardName st.sm.base_path c ∧
    fileSize (get_shard_for_writing st c).1.fs (shardName st.sm.base_path c) <
      st.sm.shard_size_limit_bytes ∧
    ∀ steps : List (Clock × FS),
      (∀ s ∈ steps, shardName st.sm.base_path s.1 ≠ st.sm.current_shard_path) →
      st.sm.current_shard_path ∉ write_trace (get_shard_for_writing st c).1 steps := by
  have key : get_shard_for_writing st c =
      (⟨{ st.sm with current_shard_path := shardName st.sm.base_path c },
         init_db st.fs (shardName st.sm.base_path c) c⟩, shardName st.sm.base_path c) := by
    simp [get_shard_for_writing, h1, create_new_shard]
  refine ⟨by rw [key], by rw [key], ?_, ?_⟩
  · rw [key]
    show fileSize (init_db st.fs (shardName st.sm.base_path c) c)
      (shardName st.sm.base_path c) < st.sm.shard_size_limit_bytes
    unfold init_db
    split
    · exact h3
    · simp [fileSize, lookupA_setA]
      exact h0
  · intro steps hsteps
    apply write_trace_avoids
    · rw [key]
      exact h2
    · intro s hs
      rw [key]
      exact hsteps s hs

/-- C1 amended witness: at the limit in October, a November call
rotates to the fresh November shard, which is below the limit, and the
October shard is not among later write targets. -/
theorem c1_rotation_amended_witness :
    (0 < c1St.sm.shard_size_limit_bytes ∧
     check_shard_size c1St.fs c1St.sm.current_shard_path c1St.sm.shard_size_limit_bytes = true ∧
     shardName c1St.sm.base_path (2025, 11) ≠ c1St.sm.current_shard_path ∧
     fileSize c1St.fs (shardName c1St.sm.base_path (2025, 11)) <
       c1St.sm.shard_size_limit_bytes) ∧
    (get_shard_for_writing c1St (2025, 11)).2 = shardName c1St.sm.base_path (2025, 11) ∧
    c1St.sm.current_shard_path ∉
      write_trace (get_shard_for_writing c1St (2025, 11)).1 [((2025, 12), c1St.fs)] :=
  ⟨⟨by decide, by decide, by decide, by decide⟩,
   (c1_rotation_amended c1St (2025, 11) (by decide) (by decide) (by decide) (by decide)).1,
   (c1_rotation_amended c1St (2025, 11) (by decide) (by decide) (by decide) (by decide)).2.2.2
     [((2025, 12), c1St.fs)] (by decide)⟩

theorem lookupA_add_page (idx : List (String × String)) (pid s q : String) :
    lookupA (add_page idx pid s) q = if q = pid then some s else lookupA idx q := by
  unfold add_page
  split
  next h =>
    by_cases h2 : q = pid
    · subst h2
      rw [if_pos rfl]
      exact h
    · rw [if_neg h2]
  next h =>
    rw [lookupA_setA]

theorem lookup_foldKeys (p : String) : ∀ (ks : List String) (idx : List (String × String))
    (q : String),
    lookupA (ks.foldl (fun a k => add_page a k p) idx) q =
      if q ∈ ks then some p else lookupA idx q := by
  intro ks
  induction ks with
  | nil => intro idx q; simp
  | cons k ks ih =>
    intro idx q
    show lookupA (ks.foldl (fun a k => add_page a k p) (add_page idx k p)) q = _
    rw [ih]
    by_cases h1 : q ∈ ks
    · simp [h1]
    · rw [if_neg h1, lookupA_add_page]
      by_cases h2 : q = k
      · simp [h2]
      · rw [if_neg h2]
        simp [List.mem_cons, h1, h2]

/-- The last shard in a scan order whose file contains a given key:
this is the binding rebuild_index leaves in the index (later scans
overwrite earlier ones through add_page). -/
def lastContaining (fs : FS) : List String → String → Option String
  | [], _ => none
  | p :: rest, q =>
    match lastContaining fs rest q with
    | some r => some r
    | none => if q ∈ keysOf fs p then some p else none

theorem lookup_scanShards (fs : FS) : ∀ (ps : List String) (idx : List (String × String))
    (q : String),
    lookupA (scanShards fs ps idx) q =
      match lastContaining fs ps q with
      | some r => some r
      | none => lookupA idx q := by
  intro ps
  induction ps with
  | nil => intro idx q; rfl
  | cons p rest ih =>
    intro idx q
    show lookupA (scanShards fs rest ((keysOf fs p).foldl (fun a k => add_page a k p) idx)) q = _
    rw [ih]
    cases hlc : lastContaining fs rest q with
    | some r => simp [lastContaining, hlc]
    | none =>
      rw [lookup_foldKeys]
      simp only [lastContaining, hlc]
      by_cases hm : q ∈ keysOf fs p
      · simp [hm]
      · simp [hm]

theorem lastContaining_mem (fs : FS) : ∀ (ps : List String) (q r : String),
    lastContaining fs ps q = some r → r ∈ ps ∧ q ∈ keysOf fs r := by
  intro ps
  induction ps with
  | nil => intro q r h; exact absurd h (by simp [lastContaining])
  | cons p rest ih =>
    intro q r h
    unfold lastContaining at h
    split at h
    next r2 heq =>
      injection h with h2
      subst h2
      have hr := ih q r2 heq
      exact ⟨List.mem_cons_of_mem p hr.1, hr.2⟩
    next heq =>
      split at h
      next hm =>
        injection h with h2
        subst h2
        exact ⟨List.mem_cons_self p rest, hm⟩
      next hm => exact absurd h (by simp)

theorem lastContaining_isSome (fs : FS) : ∀ (ps : List String) (q s : String),
    s ∈ ps → q ∈ keysOf fs s → ∃ r, lastContaining fs ps q = some r := by
  intro ps
  induction ps with
  | nil => intro q s hs _; simp at hs
  | cons p rest ih =>
    intro q s hs hq
    rcases List.mem_cons.mp hs with h | h
    · cases hlc : lastContaining fs rest q with
      | some r =>
        refine ⟨r, ?_⟩
        unfold lastContaining
        rw [hlc]
      | none =>
        refine ⟨p, ?_⟩
        unfold lastContaining
        rw [hlc]
        simp [h ▸ hq]
    · rcases ih q s h hq with ⟨r, hr⟩
      refine ⟨r, ?_⟩
      unfold lastContaining
      rw [hr]

theorem mem_of_lookupA {α : Type} : ∀ (l : List (String × α)) (p : String) (f : α),
    lookupA l p = some f → (p, f) ∈ l := by
  intro l
  induction l with
  | nil => intro p f h; exact absurd h (by simp [lookupA])
  | cons x xs ih =>
    intro p f h
    unfold lookupA at h
    split at h
    next hx =>
      injection h with h2
      subst h2
      exact List.mem_cons.mpr (Or.inl (by rw [← hx]))
    next hx => exact List.mem_cons_of_mem x (ih p f h)

theorem exists_of_mem_keysOf (fs : FS) (s k : String) (h : k ∈ keysOf fs s) :
    ∃ f, lookupA fs s = some f ∧ k ∈ f.keys := by
  unfold keysOf at h
  split at h
  next f heq => exact ⟨f, heq, h⟩
  next => simp at h

theorem mem_map_fst_setA {α : Type} : ∀ (l : List (String × α)) (p q : String) (f : α),
    q ∈ (setA l p f).map Prod.fst ↔ q ∈ l.map Prod.fst ∨ q = p := by
  intro l
  induction l with
  | nil => intro p q f; simp [setA]
  | cons x xs ih =>
    intro p q f
    by_cases hx : x.1 = p
    · simp [setA, hx, List.mem_cons]
      tauto
    · simp [setA, hx, List.mem_cons, ih]
      tauto

theorem nodup_map_fst_setA {α : Type} : ∀ (l : List (String × α)) (p : String) (f : α),
    (l.map Prod.fst).Nodup → ((setA l p f).map Prod.fst).Nodup := by
  intro l
  induction l with
  | nil => intro p f _; simp [setA]
  | cons x xs ih =>
    intro p f h
    rw [List.map_cons, List.nodup_cons] at h
    by_cases hx : x.1 = p
    · rw [show setA (x :: xs) p f = (p, f) :: xs from by simp [setA, hx]]
      rw [List.map_cons, List.nodup_cons]
      exact ⟨hx ▸ h.1, h.2⟩
    · rw [show setA (x :: xs) p f = x :: setA xs p f from by simp [setA, hx]]
      rw [List.map_cons, List.nodup_cons]
      refine ⟨?_, ih p f h.2⟩
      intro hmem
      rcases (mem_map_fst_setA xs p x.1 f).mp hmem with hm | hm
      · exact h.1 hm
      · exact hx hm

theorem nodup_map_fst_add_page (idx : List (String × String)) (pid s : String)
    (h : (idx.map Prod.fst).Nodup) : ((add_page idx pid s).map Prod.fst).Nodup := by
  unfold add_page
  split
  · exact h
  · exact nodup_map_fst_setA idx pid s h

theorem nodup_foldKeys (p : String) : ∀ (ks : List String) (idx : List (String × String)),
    (idx.map Prod.fst).Nodup →
    ((ks.foldl (fun a k => add_page a k p) idx).map Prod.fst).Nodup := by
  intro ks
  induction ks with
  | nil => intro idx h; exact h
  | cons k ks ih => intro idx h; exact ih _ (nodup_map_fst_add_page idx k p h)

theorem nodup_scanShards (fs : FS) : ∀ (ps : List String) (idx : List (String × String)),
    (idx.map Prod.fst).Nodup → ((scanShards fs ps idx).map Prod.fst).Nodup := by
  intro ps
  induction ps with
  | nil => intro idx h; exact h
  | cons p rest ih =>
    intro idx h
    exact ih _ (nodup_foldKeys p (keysOf fs p) idx h)

/-- Filesystem for the C4 counterexample: the key "k" sits in two
different shard files (reachable, since the migration's duplicate check
only consults the current write shard). -/
def c4Fs : FS :=
  [("data/changelog_2025_01.db", ⟨1, 0, ["k"]⟩),
   ("data/changelog_2025_02.db", ⟨1, 0, ["k"]⟩)]

/-- Shard manager state for the C4 theorems. -/
def c4Sm : SM := ⟨"data", 94371840, [], "data/changelog_2025_02.db"⟩

/-- C4 counterexample: after rebuild_index on a filesystem where "k" is
present in two shards, the key does appear in two shards, and the
rebuilt index maps it only to the later-scanned shard, so
get_shard_for_page does not return the first shard even though that
shard contains the key — refuting both claimed guarantees. -/
theorem c4_rebuild_cross_shard_cex :
    "k" ∈ keysOf c4Fs "data/changelog_2025_01.db" ∧
    "k" ∈ keysOf c4Fs "data/changelog_2025_02.db" ∧
    "data/changelog_2025_01.db" ≠ "data/changelog_2025_02.db" ∧
    get_shard_for_page (rebuild_index c4Sm c4Fs).shard_index "k" =
      some "data/changelog_2025_02.db" := by
  decide

/-- C4 amended: provided no key is stored in two different shard files,
after rebuild_index the index maps every key found by scanning the
shards to exactly the shard containing it, every index binding points
to a scanned shard actually containing the key, and the rebuilt index
has exactly one entry per key. -/
theorem c4_rebuild_index_amended (sm : SM) (fs : FS)
    (hdisj : ∀ x1 ∈ fs, ∀ x2 ∈ fs, x1.1 ≠ x2.1 → ∀ k ∈ x1.2.keys, k ∉ x2.2.keys) :
    (∀ k s, s ∈ get_all_shard_paths sm.base_path fs → k ∈ keysOf fs s →
      get_shard_for_page (rebuild_index sm fs).shard_index k = some s) ∧
    (∀ k s, get_shard_for_page (rebuild_index sm fs).shard_index k = some s →
      s ∈ get_all_shard_paths sm.base_path fs ∧ k ∈ keysOf fs s) ∧
    ((rebuild_index sm fs).shard_index.map Prod.fst).Nodup := by
  refine ⟨?_, ?_, ?_⟩
  · intro k s hs hk
    show lookupA (scanShards fs (get_all_shard_paths sm.base_path fs) []) k = some s
    rw [lookup_scanShards]
    rcases lastContaining_isSome fs _ k s hs hk with ⟨r, hr⟩
    simp only [hr]
    rcases lastContaining_mem fs _ k r hr with ⟨_, hrk⟩
    rcases exists_of_mem_keysOf fs s k hk with ⟨f1, hf1, hkf1⟩
    rcases exists_of_mem_keysOf fs r k hrk with ⟨f2, hf2, hkf2⟩
    by_cases heq : r = s
    · rw [heq]
    · exact absurd hkf2
        (hdisj (s, f1) (mem_of_lookupA fs s f1 hf1) (r, f2) (mem_of_lookupA fs r f2 hf2)
          (fun hh => heq hh.symm) k hkf1)
  · intro k s h
    have h2 : lookupA (scanShards fs (get_all_shard_paths sm.base_path fs) []) k = some s := h
    rw [lookup_scanShards] at h2
    cases hlc : lastContaining fs (get_all_shard_paths sm.base_path fs) k with
    | some r =>
      simp only [hlc] at h2
      injection h2 with h3
      rw [← h3]
      exact lastContaining_mem fs _ k r hlc
    | none =>
      simp only [hlc] at h2
      exact absurd h2 (by simp [lookupA])
  · exact nodup_scanShards fs _ [] (by simp)

/-- Filesystem with cross-shard-disjoint keys for the C4 witness. -/
def c4GoodFs : FS :=
  [("data/changelog_2025_01.db", ⟨1, 0, ["a"]⟩),
   ("data/changelog_2025_02.db", ⟨1, 0, ["b"]⟩)]

/-- C4 amended witness: on disjoint shards the rebuilt index resolves a
key to its own shard and has no duplicate entries. -/
theorem c4_rebuild_index_amended_witness :
    (∀ x1 ∈ c4GoodFs, ∀ x2 ∈ c4GoodFs, x1.1 ≠ x2.1 → ∀ k ∈ x1.2.keys, k ∉ x2.2.keys) ∧
    get_shard_for_page (rebuild_index c4Sm c4GoodFs).shard_index "a" =
      some "data/changelog_2025_01.db" ∧
    ((rebuild_index c4Sm c4GoodFs).shard_index.map Prod.fst).Nodup :=
  ⟨by decide,
   (c4_rebuild_index_amended c4Sm c4GoodFs (by decide)).1 "a" "data/changelog_2025_01.db"
     (by decide) (by decide),
   (c4_rebuild_index_amended c4Sm c4GoodFs (by decide)).2.2⟩

theorem attempt_go_delays (e : Entry) (st : St) (c : Clock) :
    ∀ (fuel r : Nat), ∃ t, t ≤ fuel ∧
      (attempt_go e st c r fuel).2 =
        (List.range t).map (fun i => RETRY_DELAY * (r + i + 1)) := by
  intro fuel
  induction fuel with
  | zero => intro r; exact ⟨0, Nat.le_refl 0, rfl⟩
  | succ fuel ih =>
    intro r
    show ∃ t, t ≤ fuel + 1 ∧
      (match e.attempts r with
       | Att.ok =>
         match insert_entry_to_shard e st c with
         | some r2 => (some r2, [])
         | none =>
           let t := attempt_go e st c (r + 1) fuel
           (t.1, RETRY_DELAY * (r + 1) :: t.2)
       | Att.transient =>
         let t := attempt_go e st c (r + 1) fuel
         (t.1, RETRY_DELAY * (r + 1) :: t.2)
       | Att.perm => (none, [])).2 =
        (List.range t).map (fun i => RETRY_DELAY * (r + i + 1))
    cases e.attempts r with
    | ok =>
      cases hins : insert_entry_to_shard e st c with
      | some st2 => exact ⟨0, Nat.zero_le _, by simp [hins]⟩
      | none =>
        rcases ih (r + 1) with ⟨t, ht, hd⟩
        refine ⟨t + 1, by omega, ?_⟩
        simp only [hins, hd, List.range_succ_eq_map, List.map_cons, List.map_map]
        refine List.cons_eq_cons.mpr ⟨rfl, List.map_congr_left ?_⟩
        intro i _
        show RETRY_DELAY * (r + 1 + i + 1) = RETRY_DELAY * (r + (i + 1) + 1)
        exact congrArg (fun x => RETRY_DELAY * x) (by omega)
    | transient =>
      rcases ih (r + 1) with ⟨t, ht, hd⟩
      refine ⟨t + 1, by omega, ?_⟩
      simp only [hd, List.range_succ_eq_map, List.map_cons, List.map_map]
      refine List.cons_eq_cons.mpr ⟨rfl, List.map_congr_left ?_⟩
      intro i _
      show RETRY_DELAY * (r + 1 + i + 1) = RETRY_DELAY * (r + (i + 1) + 1)
      exact congrArg (fun x => RETRY_DELAY * x) (by omega)
    | perm => exact ⟨0, Nat.zero_le _, rfl⟩

theorem attempt_go_success (e : Entry) (st : St) (c : Clock) :
    ∀ (fuel r : Nat) (st2 : St), (attempt_go e st c r fuel).1 = some st2 →
      insert_entry_to_shard e st c = some st2 := by
  intro fuel
  induction fuel with
  | zero => intro r st2 h; exact absurd h (by simp [attempt_go])
  | succ fuel ih =>
    intro r st2 h
    unfold attempt_go at h
    cases hatt : e.attempts r with
    | ok =>
      simp only [hatt] at h
      cases hins : insert_entry_to_shard e st c with
      | some st3 =>
        simp only [hins] at h
        rw [h]
      | none =>
        simp only [hins] at h
        have h3 := ih (r + 1) st2 h
        rw [hins] at h3
        exact h3
    | transient =>
      simp only [hatt] at h
      exact ih (r + 1) st2 h
    | perm =>
      simp only [hatt] at h
      exact absurd h (by simp)

/-- C6: every per-record insertion failure path is bounded: the retry
loop sleeps RETRY_DELAY * n before the n-th further attempt (linearly
increasing back-off) and performs at most MAX_RETRIES sleeps; when the
loop ends without success — retries exhausted on transient
OperationalErrors or any non-retryable exception — the record's key is
not appended to processed_page_ids and the batch continues with the
next record from an unchanged state. -/
theorem c6_retry_backoff (e : Entry) (st : St) (c : Clock) (cp : Checkpoint)
    (rest : List Entry)
    (hfail : (attempt_insert e st c 0).1 = none)
    (hnew : e.page_id ∉ cp.processed_page_ids) :
    (∃ t, t ≤ MAX_RETRIES ∧
      (attempt_insert e st c 0).2 =
        (List.range t).map (fun i => RETRY_DELAY * (i + 1))) ∧
    process_batch (e :: rest) st cp c = process_batch rest st cp c := by
  constructor
  · rcases attempt_go_delays e st c (MAX_RETRIES - 0) 0 with ⟨t, ht, hd⟩
    refine ⟨t, by omega, ?_⟩
    rw [show attempt_insert e st c 0 = attempt_go e st c 0 (MAX_RETRIES - 0) from rfl, hd]
    apply List.map_congr_left
    intro i _
    show RETRY_DELAY * (0 + i + 1) = RETRY_DELAY * (i + 1)
    exact congrArg (fun x => RETRY_DELAY * x) (by omega)
  · conv_lhs => rw [process_batch]
    rw [if_neg hnew, hfail]

/-- Entry whose every insertion attempt hits a transient lock error. -/
def c6Entry : Entry := ⟨"p6", 1, fun _ => Att.transient⟩

/-- Router state for the C6 witness. -/
def c6St : St :=
  ⟨⟨"data", 94371840, [], "data/changelog_2025_01.db"⟩,
   [("data/changelog_2025_01.db", ⟨0, 24301, []⟩)]⟩

/-- Fresh checkpoint for the C6 witness. -/
def c6Cp : Checkpoint := ⟨0, 0, "t", [], ""⟩

/-- C6 witness: an always-transient record sleeps 5, 10, 15 seconds,
is never marked processed, and the batch moves on. -/
theorem c6_retry_backoff_witness :
    ((attempt_insert c6Entry c6St (2025, 1) 0).1 = none ∧
     c6Entry.page_id ∉ c6Cp.processed_page_ids) ∧
    (∃ t, t ≤ MAX_RETRIES ∧
      (attempt_insert c6Entry c6St (2025, 1) 0).2 =
        (List.range t).map (fun i => RETRY_DELAY * (i + 1))) ∧
    process_batch [c6Entry] c6St c6Cp (2025, 1) =
      process_batch [] c6St c6Cp (2025, 1) :=
  ⟨⟨by decide, by decide⟩,
   (c6_retry_backoff c6Entry c6St (2025, 1) c6Cp [] (by decide) (by decide)).1,
   (c6_retry_backoff c6Entry c6St (2025, 1) c6Cp [] (by decide) (by decide)).2⟩

theorem process_batch_count : ∀ (es : List Entry) (st : St) (cp : Checkpoint) (c : Clock),
    (process_batch es st cp c).2.2 =
      (batch_outcomes es st cp c).count BOut.skipped +
      (batch_outcomes es st cp c).count BOut.inserted := by
  intro es
  induction es with
  | nil => intro st cp c; rfl
  | cons e rest ih =>
    intro st cp c
    simp only [process_batch, batch_outcomes]
    split
    next hm =>
      simp [List.count_cons, ih]
      omega
    next hm =>
      cases hatt : (attempt_insert e st c 0).1 with
      | some st1 =>
        simp [hatt, List.count_cons, ih]
        omega
      | none =>
        simp [hatt, List.count_cons, ih]

/-- C5 amended: after each batch the checkpoint's entries_processed is
set to the batch's starting source offset plus processed_count, where
processed_count counts the records that were skipped as
already-processed plus the records successfully inserted — failed
records are not counted, but skipped ones are; and the in-loop source
offset advances by batch_size regardless of successes. -/
theorem c5_checkpoint_update_amended (source : List Entry) (bsize : Nat) (c : Clock)
    (clocks : Nat → Clock) (ts : String) (offset bn : Nat) (m : MigSt) :
    (migrate_batch source bsize c ts offset bn m).cp.entries_processed =
      offset + (process_batch ((source.drop offset).take bsize) m.st m.cp c).2.2 ∧
    (process_batch ((source.drop offset).take bsize) m.st m.cp c).2.2 =
      (batch_outcomes ((source.drop offset).take bsize) m.st m.cp c).count BOut.skipped +
      (batch_outcomes ((source.drop offset).take bsize) m.st m.cp c).count BOut.inserted ∧
    ∀ (total fuel : Nat), offset < total →
      migrate_loop source bsize clocks ts total (fuel + 1) offset bn m =
        migrate_loop source bsize clocks ts total fuel (offset + bsize) (bn + 1)
          (migrate_batch source bsize (clocks bn) ts offset bn m) := by
  refine ⟨rfl, process_batch_count _ _ _ _, ?_⟩
  intro total fuel h
  simp [migrate_loop, h]

/-- Entry for the C5 scenarios: a record that would insert cleanly. -/
def c5Entry : Entry := ⟨"p5", 1, fun _ => Att.ok⟩

/-- Migration state whose checkpoint already lists "p5" as processed. -/
def c5M : MigSt := ⟨c6St, ⟨1, 0, "t", ["p5"], ""⟩, some (some ⟨1, 0, "t", ["p5"], ""⟩)⟩

/-- C5 counterexample: a batch whose only record is skipped (already in
processed_page_ids) still raises entries_processed by one — the update
counts skipped records, and the filesystem shows zero successful
inserts — refuting "incremented by exactly the number of successes
(not by skipped or failed records)". -/
theorem c5_entries_processed_counts_skips_cex :
    (migrate_batch [c5Entry] 1 (2025, 1) "t" 0 1 c5M).cp.entries_processed = 1 ∧
    batch_outcomes [c5Entry] c5M.st c5M.cp (2025, 1) = [BOut.skipped] ∧
    (migrate_batch [c5Entry] 1 (2025, 1) "t" 0 1 c5M).st.fs = c5M.st.fs := by
  decide

/-- Fresh migration state for the C5 witness. -/
def c5M2 : MigSt := ⟨c6St, ⟨0, 0, "t", [], ""⟩, none⟩

/-- C5 amended witness at a concrete one-record batch. -/
theorem c5_checkpoint_update_amended_witness :
    (migrate_batch [c5Entry] 1 (2025, 1) "t" 0 1 c5M2).cp.entries_processed =
      0 + (process_batch (([c5Entry].drop 0).take 1) c5M2.st c5M2.cp (2025, 1)).2.2 ∧
    0 < 1 ∧
    migrate_loop [c5Entry] 1 (fun _ => (2025, 1)) "t" 1 (0 + 1) 0 1 c5M2 =
      migrate_loop [c5Entry] 1 (fun _ => (2025, 1)) "t" 1 0 (0 + 1) (1 + 1)
        (migrate_batch [c5Entry] 1 ((fun _ => (2025, 1)) 1) "t" 0 1 c5M2) :=
  ⟨(c5_checkpoint_update_amended [c5Entry] 1 (2025, 1) (fun _ => (2025, 1)) "t" 0 1 c5M2).1,
   by decide,
   (c5_checkpoint_update_amended [c5Entry] 1 (2025, 1) (fun _ => (2025, 1)) "t" 0 1 c5M2).2.2
     1 0 (by decide)⟩

theorem countKey_cons (k : String) (x : String × File) (xs : FS) :
    countKey k (x :: xs) = x.2.keys.count k + countKey k xs := by
  simp [countKey]

theorem countKey_setA_present (k : String) : ∀ (fs : FS) (p : String) (f g : File),
    lookupA fs p = some f → g.keys.count k = f.keys.count k →
    countKey k (setA fs p g) = countKey k fs := by
  intro fs
  induction fs with
  | nil => intro p f g h _; exact absurd h (by simp [lookupA])
  | cons x xs ih =>
    intro p f g h hcount
    unfold lookupA at h
    split at h
    next hx =>
      injection h with h2
      rw [show setA (x :: xs) p g = (p, g) :: xs from by simp [setA, hx]]
      rw [countKey_cons, countKey_cons, hcount, ← h2]
    next hx =>
      rw [show setA (x :: xs) p g = x :: setA xs p g from by simp [setA, hx]]
      rw [countKey_cons, countKey_cons, ih p f g h hcount]

theorem countKey_setA_absent (k : String) : ∀ (fs : FS) (p : String) (g : File),
    lookupA fs p = none →
    countKey k (setA fs p g) = countKey k fs + g.keys.count k := by
  intro fs
  induction fs with
  | nil =>
    intro p g _
    show countKey k [(p, g)] = countKey k [] + g.keys.count k
    simp [countKey]
  | cons x xs ih =>
    intro p g h
    unfold lookupA at h
    split at h
    next hx => exact absurd h (by simp)
    next hx =>
      rw [show setA (x :: xs) p g = x :: setA xs p g from by simp [setA, hx]]
      rw [countKey_cons, countKey_cons, ih p g h]
      omega

theorem countKey_init_db (k : String) (fs : FS) (p : String) (c : Clock) :
    countKey k (init_db fs p c) = countKey k fs := by
  unfold init_db
  split
  · rfl
  next h =>
    rw [countKey_setA_absent k fs p _ h]
    simp

theorem countKey_gsfw (k : String) (st : St) (c : Clock) :
    countKey k (get_shard_for_writing st c).1.fs = countKey k st.fs := by
  unfold get_shard_for_writing
  split
  · exact countKey_init_db k st.fs (shardName st.sm.base_path c) c
  · rfl

theorem insert_entry_eq (e : Entry) (st : St) (c : Clock) :
    insert_entry_to_shard e st c =
      match lookupA (get_shard_for_writing st c).1.fs (get_shard_for_writing st c).2 with
      | none => none
      | some f =>
        if e.page_id ∈ f.keys then some (get_shard_for_writing st c).1
        else some ⟨{ (get_shard_for_writing st c).1.sm with
            shard_index := add_page (get_shard_for_writing st c).1.sm.shard_index e.page_id
              (get_shard_for_writing st c).2 },
          setA (get_shard_for_writing st c).1.fs (get_shard_for_writing st c).2
            ⟨f.size + e.size, clockVal c, f.keys ++ [e.page_id]⟩⟩ := rfl

theorem countKey_insert (k : String) (e : Entry) (st : St) (c : Clock) (st2 : St)
    (hne : e.page_id ≠ k) (h : insert_entry_to_shard e st c = some st2) :
    countKey k st2.fs = countKey k st.fs := by
  rw [insert_entry_eq] at h
  split at h
  next heq => exact absurd h (by simp)
  next f heq =>
    split at h
    next hmem =>
      injection h with h2
      rw [← h2]
      exact countKey_gsfw k st c
    next hmem =>
      injection h with h2
      rw [← h2]
      show countKey k (setA (get_shard_for_writing st c).1.fs (get_shard_for_writing st c).2
        ⟨f.size + e.size, clockVal c, f.keys ++ [e.page_id]⟩) = countKey k st.fs
      rw [countKey_setA_present k ((get_shard_for_writing st c).1.fs)
        ((get_shard_for_writing st c).2) f ⟨f.size + e.size, clockVal c, f.keys ++ [e.page_id]⟩
        heq ?hc]
      · exact countKey_gsfw k st c
      case hc =>
        show (f.keys ++ [e.page_id]).count k = f.keys.count k
        rw [List.count_append]
        simp [List.count_cons, hne]

theorem countKey_process_batch (k : String) : ∀ (es : List Entry) (st : St) (cp : Checkpoint)
    (c : Clock), k ∈ cp.processed_page_ids →
    countKey k (process_batch es st cp c).1.fs = countKey k st.fs := by
  intro es
  induction es with
  | nil => intro st cp c _; rfl
  | cons e rest ih =>
    intro st cp c hk
    simp only [process_batch]
    split
    next hm => exact ih st cp c hk
    next hm =>
      cases hatt : (attempt_insert e st c 0).1 with
      | some st1 =>
        simp only [hatt]
        have hne : e.page_id ≠ k := fun hh => hm (hh ▸ hk)
        have h1 : countKey k st1.fs = countKey k st.fs :=
          countKey_insert k e st c st1 hne
            (attempt_go_success e st c (MAX_RETRIES - 0) 0 st1 hatt)
        have h2 := ih st1 { cp with processed_page_ids := cp.processed_page_ids ++ [e.page_id] }
          c (List.mem_append_left _ hk)
        rw [h2, h1]
      | none =>
        simp only [hatt]
        exact ih st cp c hk

theorem process_batch_processed_mono : ∀ (es : List Entry) (st : St) (cp : Checkpoint)
    (c : Clock), ∃ l, (process_batch es st cp c).2.1.processed_page_ids =
      cp.processed_page_ids ++ l := by
  intro es
  induction es with
  | nil => intro st cp c; exact ⟨[], by simp [process_batch]⟩
  | cons e rest ih =>
    intro st cp c
    simp only [process_batch]
    split
    next hm => exact ih st cp c
    next hm =>
      cases hatt : (attempt_insert e st c 0).1 with
      | some st1 =>
        simp only [hatt]
        rcases ih st1 { cp with processed_page_ids := cp.processed_page_ids ++ [e.page_id] } c
          with ⟨l, hl⟩
        refine ⟨[e.page_id] ++ l, ?_⟩
        rw [hl]
        simp
      | none =>
        simp only [hatt]
        exact ih st cp c

theorem countKey_migrate_batch (k : String) (source : List Entry) (bsize : Nat) (c : Clock)
    (ts : String) (offset bn : Nat) (m : MigSt) (hk : k ∈ m.cp.processed_page_ids) :
    countKey k (migrate_batch source bsize c ts offset bn m).st.fs = countKey k m.st.fs ∧
    k ∈ (migrate_batch source bsize c ts offset bn m).cp.processed_page_ids := by
  constructor
  · show countKey k
      (get_shard_for_writing (process_batch ((source.drop offset).take bsize) m.st m.cp c).1
        c).1.fs = _
    rw [countKey_gsfw]
    exact countKey_process_batch k _ m.st m.cp c hk
  · show k ∈ (process_batch ((source.drop offset).take bsize) m.st m.cp c).2.1.processed_page_ids
    rcases process_batch_processed_mono ((source.drop offset).take bsize) m.st m.cp c with ⟨l, hl⟩
    rw [hl]
    exact List.mem_append_left _ hk

theorem migrate_loop_succ_lt (source : List Entry) (bsize : Nat) (clocks : Nat → Clock)
    (ts : String) (total fuel off bn : Nat) (m : MigSt) (h : off < total) :
    migrate_loop source bsize clocks ts total (fuel + 1) off bn m =
      migrate_loop source bsize clocks ts total fuel (off + bsize) (bn + 1)
        (migrate_batch source bsize (clocks bn) ts off bn m) := by
  simp [migrate_loop, h]

theorem migrate_loop_succ_ge (source : List Entry) (bsize : Nat) (clocks : Nat → Clock)
    (ts : String) (total fuel off bn : Nat) (m : MigSt) (h : ¬off < total) :
    migrate_loop source bsize clocks ts total (fuel + 1) off bn m = (m, off, bn) := by
  simp [migrate_loop, h]

theorem countKey_migrate_loop (k : String) (source : List Entry) (bsize : Nat)
    (clocks : Nat → Clock) (ts : String) (total : Nat) :
    ∀ (fuel offset bn : Nat) (m : MigSt), k ∈ m.cp.processed_page_ids →
      countKey k (migrate_loop source bsize clocks ts total fuel offset bn m).1.st.fs =
        countKey k m.st.fs ∧
      k ∈ (migrate_loop source bsize clocks ts total fuel offset bn m).1.cp.processed_page_ids := by
  intro fuel
  induction fuel with
  | zero => intro off bn m hk; exact ⟨rfl, hk⟩
  | succ fuel ih =>
    intro off bn m hk
    by_cases h : off < total
    · rw [migrate_loop_succ_lt source bsize clocks ts total fuel off bn m h]
      rcases countKey_migrate_batch k source bsize (clocks bn) ts off bn m hk with ⟨h1, h2⟩
      rcases ih (off + bsize) (bn + 1) (migrate_batch source bsize (clocks bn) ts off bn m) h2
        with ⟨h3, h4⟩
      exact ⟨by rw [h3, h1], h4⟩
    · rw [migrate_loop_succ_ge source bsize clocks ts total fuel off bn m h]
      exact ⟨rfl, hk⟩

theorem countKey_gsm (k base : String) (limit_mb : Nat) (inst : Option SM)
    (idxFile : Option (Option (List (String × String)))) (fs : FS) (c : Clock) :
    countKey k (get_shard_manager base limit_mb inst idxFile fs c).2.2 = countKey k fs := by
  cases inst with
  | some m => rfl
  | none =>
    show countKey k (get_or_create_current_shard base (limit_mb * 1024 * 1024) fs c).2 =
      countKey k fs
    unfold get_or_create_current_shard
    cases hmr : mostRecent fs (get_all_shard_paths base fs) with
    | none =>
      simp only [hmr]
      exact countKey_init_db k fs (shardName base c) c
    | some p =>
      simp only [hmr]
      split
      · exact countKey_init_db k fs (shardName base c) c
      · rfl

theorem migrate_database_fs (source : List Entry) (target : String) (bsize limit_mb : Nat)
    (force : Bool) (inst : Option SM) (idxFile : Option (Option (List (String × String))))
    (fs : FS) (cpFile : Option (Option Checkpoint)) (clocks : Nat → Clock) (ts : String)
    (fuel : Nat) :
    (migrate_database source target bsize limit_mb force inst idxFile fs cpFile clocks ts
        fuel).1.st.fs =
      (migrate_loop source bsize clocks ts source.length fuel
        (resume_start cpFile force ts).2.1 (resume_start cpFile force ts).2.2
        ⟨⟨(get_shard_manager target limit_mb inst idxFile fs (clocks 0)).1,
          (get_shard_manager target limit_mb inst idxFile fs (clocks 0)).2.2⟩,
         (resume_start cpFile force ts).1, cpFile⟩).1.st.fs := by
  simp only [migrate_database]
  split <;> rfl

theorem resume_start_eq (cp : Checkpoint) (ts : String) :
    resume_start (some (some cp)) false ts =
      (cp, cp.entries_processed, cp.last_batch + 1) := by
  simp [resume_start, load_checkpoint]

theorem migrate_loop_cpFile (source : List Entry) (bsize : Nat) (clocks : Nat → Clock)
    (ts : String) (total : Nat) : ∀ (fu off bn : Nat) (m : MigSt),
    (migrate_loop source bsize clocks ts total fu off bn m).1.cpFile =
      some (some (migrate_loop source bsize clocks ts total fu off bn m).1.cp) ∨
    (migrate_loop source bsize clocks ts total fu off bn m).1 = m := by
  intro fu
  induction fu with
  | zero => intro off bn m; right; rfl
  | succ fu ih =>
    intro off bn m
    by_cases h : off < total
    · rw [migrate_loop_succ_lt source bsize clocks ts total fu off bn m h]
      rcases ih (off + bsize) (bn + 1) (migrate_batch source bsize (clocks bn) ts off bn m)
        with hc | hc
      · left; exact hc
      · left; rw [hc]; rfl
    · rw [migrate_loop_succ_ge source bsize clocks ts total fu off bn m h]
      right; rfl

/-- C3: (a) the migration loop only writes the checkpoint file at the
end of a completed batch, so a run interrupted between batches (fuel
exhaustion models the cooperative operator interrupt) leaves the
on-disk checkpoint equal to the in-memory checkpoint after the last
fully completed batch — or untouched when no batch completed; (b) a
subsequent run with force_restart=false and the checkpoint file
present resumes at offset = entries_processed and batch
last_batch + 1; (c) every key in the checkpoint's processed set is
skipped, never re-inserted: its occurrence count across all shard
files is unchanged by the entire resumed run. -/
theorem c3_interrupt_resume (source : List Entry) (target : String)
    (bsize limit_mb fuel : Nat) (inst : Option SM)
    (idxFile : Option (Option (List (String × String)))) (fs : FS)
    (cpFile : Option (Option Checkpoint)) (clocks : Nat → Clock) (ts ts2 : String)
    (cp0 : Checkpoint) (k : String)
    (hcp : cpFile = some (some cp0))
    (hk : k ∈ cp0.processed_page_ids) :
    (∀ (total fu off bn : Nat) (m : MigSt),
      (migrate_loop source bsize clocks ts total fu off bn m).1.cpFile =
        some (some (migrate_loop source bsize clocks ts total fu off bn m).1.cp) ∨
      (migrate_loop source bsize clocks ts total fu off bn m).1 = m) ∧
    resume_start cpFile false ts2 = (cp0, cp0.entries_processed, cp0.last_batch + 1) ∧
    countKey k (migrate_database source target bsize limit_mb false inst idxFile fs cpFile
        clocks ts fuel).1.st.fs = countKey k fs := by
  refine ⟨fun total => migrate_loop_cpFile source bsize clocks ts total, ?_, ?_⟩
  · rw [hcp]
    exact resume_start_eq cp0 ts2
  · rw [migrate_database_fs]
    have hm0 : k ∈ (⟨⟨(get_shard_manager target limit_mb inst idxFile fs (clocks 0)).1,
        (get_shard_manager target limit_mb inst idxFile fs (clocks 0)).2.2⟩,
        (resume_start cpFile false ts).1, cpFile⟩ : MigSt).cp.processed_page_ids := by
      show k ∈ (resume_start cpFile false ts).1.processed_page_ids
      rw [hcp, resume_start_eq]
      exact hk
    rcases countKey_migrate_loop k source bsize clocks ts source.length fuel
      (resume_start cpFile false ts).2.1 (resume_start cpFile false ts).2.2 _ hm0
      with ⟨h1, _⟩
    rw [h1]
    exact countKey_gsm k target limit_mb inst idxFile fs (clocks 0)

/-- Record used by the C3 and C2 witnesses. -/
def c3E : Entry := ⟨"p1", 10, fun _ => Att.ok⟩

/-- Checkpoint recorded after one fully completed batch that migrated
"p1". -/
def c3Cp : Checkpoint := ⟨1, 1, "t", ["p1"], "data/changelog_2025_01.db"⟩

/-- Filesystem left by that completed batch. -/
def c3Fs : FS := [("data/changelog_2025_01.db", ⟨10, 24301, ["p1"]⟩)]

/-- C3 witness: resuming from the concrete checkpoint starts at its
entries_processed and last_batch + 1 and leaves the count of the
already-processed key unchanged across the whole run. -/
theorem c3_interrupt_resume_witness :
    (some (some c3Cp) = some (some c3Cp) ∧ "p1" ∈ c3Cp.processed_page_ids) ∧
    resume_start (some (some c3Cp)) false "t2" =
      (c3Cp, c3Cp.entries_processed, c3Cp.last_batch + 1) ∧
    countKey "p1" (migrate_database [c3E] "data" 1 90 false none none c3Fs
        (some (some c3Cp)) (fun _ => (2025, 1)) "t" 10).1.st.fs = countKey "p1" c3Fs :=
  ⟨⟨rfl, by decide⟩,
   (c3_interrupt_resume [c3E] "data" 1 90 10 none none c3Fs (some (some c3Cp))
      (fun _ => (2025, 1)) "t" "t2" c3Cp "p1" rfl (by decide)).2.1,
   (c3_interrupt_resume [c3E] "data" 1 90 10 none none c3Fs (some (some c3Cp))
      (fun _ => (2025, 1)) "t" "t2" c3Cp "p1" rfl (by decide)).2.2⟩

theorem process_batch_all_skip : ∀ (es : List Entry) (st : St) (cp : Checkpoint) (c : Clock),
    (∀ e ∈ es, e.page_id ∈ cp.processed_page_ids) →
    process_batch es st cp c = (st, cp, es.length) := by
  intro es
  induction es with
  | nil => intro st cp c _; rfl
  | cons e rest ih =>
    intro st cp c hall
    have hm : e.page_id ∈ cp.processed_page_ids := hall e (List.mem_cons_self e rest)
    conv_lhs => rw [process_batch]
    rw [if_pos hm, ih st cp c (fun e2 he2 => hall e2 (List.mem_cons_of_mem e he2))]
    rfl

theorem migrate_batch_all_skip (source : List Entry) (bsize : Nat) (c : Clock) (ts : String)
    (offset bn : Nat) (m : MigSt)
    (hall : ∀ e ∈ (source.drop offset).take bsize, e.page_id ∈ m.cp.processed_page_ids) :
    (∀ k, countKey k (migrate_batch source bsize c ts offset bn m).st.fs =
      countKey k m.st.fs) ∧
    (migrate_batch source bsize c ts offset bn m).cp.processed_page_ids =
      m.cp.processed_page_ids := by
  have hpb := process_batch_all_skip ((source.drop offset).take bsize) m.st m.cp c hall
  constructor
  · intro k
    show countKey k
      (get_shard_for_writing (process_batch ((source.drop offset).take bsize) m.st m.cp c).1
        c).1.fs = _
    rw [hpb, countKey_gsfw]
  · show (process_batch ((source.drop offset).take bsize) m.st m.cp c).2.1.processed_page_ids = _
    rw [hpb]

theorem migrate_loop_all_skip (source : List Entry) (bsize : Nat) (clocks : Nat → Clock)
    (ts : String) (total : Nat) (procs : List String)
    (hall : ∀ e ∈ source, e.page_id ∈ procs) :
    ∀ (fuel off bn : Nat) (m : MigSt), m.cp.processed_page_ids = procs →
      (∀ k, countKey k (migrate_loop source bsize clocks ts total fuel off bn m).1.st.fs =
        countKey k m.st.fs) ∧
      (migrate_loop source bsize clocks ts total fuel off bn m).1.cp.processed_page_ids =
        procs := by
  intro fuel
  induction fuel with
  | zero => intro off bn m hp; exact ⟨fun _ => rfl, hp⟩
  | succ fuel ih =>
    intro off bn m hp
    by_cases h : off < total
    · rw [migrate_loop_succ_lt source bsize clocks ts total fuel off bn m h]
      have hallb : ∀ e ∈ (source.drop off).take bsize,
          e.page_id ∈ m.cp.processed_page_ids := by
        intro e he
        rw [hp]
        exact hall e (List.drop_subset off source (List.take_subset _ _ he))
      rcases migrate_batch_all_skip source bsize (clocks bn) ts off bn m hallb with ⟨h1, h2⟩
      have hp2 : (migrate_batch source bsize (clocks bn) ts off bn m).cp.processed_page_ids =
          procs := by rw [h2, hp]
      rcases ih (off + bsize) (bn + 1) _ hp2 with ⟨h3, h4⟩
      exact ⟨fun k => by rw [h3 k, h1 k], h4⟩
    · rw [migrate_loop_succ_ge source bsize clocks ts total fuel off bn m h]
      exact ⟨fun _ => rfl, hp⟩

/-- C2 amended: re-running the migration while resuming from a
checkpoint whose processed_page_ids contains every source key — the
near-completed-checkpoint case — changes no shard's key multiset: the
final key set equals that of the single uninterrupted run and the
second run introduces no duplicate.  (Without that checkpoint — it is
deleted after a completed run — the duplicate check consults only the
current write shard, and a key living in another shard is re-inserted;
see the counterexample.) -/
theorem c2_resume_processed_superset_preserves_keys (source : List Entry) (target : String)
    (bsize limit_mb fuel : Nat) (inst : Option SM)
    (idxFile : Option (Option (List (String × String)))) (fs : FS) (cp0 : Checkpoint)
    (clocks : Nat → Clock) (ts : String)
    (hall : ∀ e ∈ source, e.page_id ∈ cp0.processed_page_ids) :
    ∀ k, countKey k (migrate_database source target bsize limit_mb false inst idxFile fs
        (some (some cp0)) clocks ts fuel).1.st.fs = countKey k fs := by
  intro k
  rw [migrate_database_fs]
  have hp : (⟨⟨(get_shard_manager target limit_mb inst idxFile fs (clocks 0)).1,
      (get_shard_manager target limit_mb inst idxFile fs (clocks 0)).2.2⟩,
      (resume_start (some (some cp0)) false ts).1,
      some (some cp0)⟩ : MigSt).cp.processed_page_ids = cp0.processed_page_ids := by
    show (resume_start (some (some cp0)) false ts).1.processed_page_ids = _
    rw [resume_start_eq]
  rcases migrate_loop_all_skip source bsize clocks ts source.length cp0.processed_page_ids
    hall fuel (resume_start (some (some cp0)) false ts).2.1
    (resume_start (some (some cp0)) false ts).2.2 _ hp with ⟨h1, _⟩
  rw [h1 k]
  exact countKey_gsm k target limit_mb inst idxFile fs (clocks 0)

/-- C2 amended witness: a second run resuming from a checkpoint that
records "p1" as processed leaves the key count unchanged. -/
theorem c2_resume_processed_superset_preserves_keys_witness :
    (∀ e ∈ [c3E], e.page_id ∈ c3Cp.processed_page_ids) ∧
    countKey "p1" (migrate_database [c3E] "data" 1 90 false none none c3Fs
        (some (some c3Cp)) (fun _ => (2025, 1)) "t" 10).1.st.fs = countKey "p1" c3Fs :=
  ⟨by decide,
   c2_resume_processed_superset_preserves_keys [c3E] "data" 1 90 10 none none c3Fs c3Cp
     (fun _ => (2025, 1)) "t" (by decide) "p1"⟩

/-- First source record of the C2 counterexample; its rows outgrow the
90 MB shard limit on their own. -/
def c2E1 : Entry := ⟨"p1", 100000000, fun _ => Att.ok⟩

/-- Second source record of the C2 counterexample. -/
def c2E2 : Entry := ⟨"p2", 100000000, fun _ => Att.ok⟩

/-- First, uninterrupted migration run on an empty target directory.
The wall clock rolls from 2025-01 to 2025-02 after the first batch, so
the run rotates and leaves two shards, and on completion deletes its
checkpoint file. -/
def c2Run1 : MigSt × Option SM :=
  migrate_database [c2E1, c2E2] "data" 1 90 false none none [] none
    (fun n => if n ≤ 1 then (2025, 1) else (2025, 2)) "t1" 10

/-- Second migration run, started immediately afterwards in a fresh
process (singleton slot empty), over the same source, resuming from
the completed first run: the index file is the one the first run
saved, the filesystem is the first run's, and the checkpoint file is
gone (the first run removed it on success). -/
def c2Run2 : MigSt × Option SM :=
  migrate_database [c2E1, c2E2] "data" 1 90 false none
    (some (some c2Run1.1.st.sm.shard_index)) c2Run1.1.st.fs c2Run1.1.cpFile
    (fun _ => (2025, 2)) "t2" 10

/-- C2 counterexample: after run 1 the key "p1" is stored once; run 2,
resuming from the completed (hence deleted) checkpoint, re-inserts
"p1" into the current write shard because the insert-or-skip check
only consults that shard, leaving "p1" present in two different shards
— refuting "no page_id key appears more than once in any shard nor in
two different shards". -/
theorem c2_double_migration_duplicate_cex :
    c2Run1.1.cpFile = none ∧
    countKey "p1" c2Run1.1.st.fs = 1 ∧
    countKey "p1" c2Run2.1.st.fs = 2 ∧
    "p1" ∈ keysOf c2Run2.1.st.fs "data/changelog_2025_01.db" ∧
    "p1" ∈ keysOf c2Run2.1.st.fs "data/changelog_2025_02.db" ∧
    "data/changelog_2025_01.db" ≠ "data/changelog_2025_02.db" := by
  decide
